import Mathlib

/-!
# Verification of the `lazy_static_core` atomic-guarded lazy cell

Shallow embedding of the deref body generated by the `lazy_static_core!` macro
(src/src/lib.rs).  The generated code is, per declaration:

```
static mut data: *const T = 0 as *const T;
static INITIALIZED: AtomicBool = INIT_ATOMIC_BOOL;
if INITIALIZED.compare_and_swap(false, true, Ordering::SeqCst) == false {
    unsafe { data = transmute::<Box<T>, *const T>(box() (EXPR)) };
}
let static_ref = unsafe { &*data };
require_sync(static_ref);
static_ref
```

We model the cell state (the `INITIALIZED` flag, the raw `data` pointer with
0 as null, and a heap of boxed allocations) and give two semantics:

* a sequential single-call semantics `derefCall`, instrumented with the trace
  of atomic operations performed on the flag and with whether the constructor
  expression was evaluated; a failing constructor is modelled by `ctor = none`,
  and a call whose constructor failure propagates returns `ret = none`;
* a concurrent small-step semantics `stepThread` for any number of threads
  each executing the deref body, where the compare-and-swap and the slot write
  are separate steps, exactly as in the source (the CAS is line 104, the slot
  write line 106, the slot read line 108).
-/

namespace LazyStaticCore

/-- Atomic operations on the `INITIALIZED` flag.  `cas old` is
`compare_and_swap(false, true, SeqCst)` returning the previous value `old`;
`load v` is a plain atomic load observing `v` (the source never performs one,
but the type must be able to speak about loads to settle claims about them). -/
inductive FlagOp where
  | cas (old : Bool)
  | load (v : Bool)
deriving DecidableEq, Repr

/-- The per-declaration cell state: the `INITIALIZED` atomic flag (`inited`),
the raw pointer `data` (0 is null, as in `static mut data: *const T = 0`),
an allocator cursor `nextAddr` handing out fresh nonzero box addresses, the
heap of boxed values, and an instrumentation counter `ctorRuns` counting how
often the user constructor expression was evaluated. -/
structure CellSt (T : Type) where
  inited : Bool
  data : Nat
  nextAddr : Nat
  ctorRuns : Nat
  heap : List (Nat × T)
deriving DecidableEq, Repr

/-- A fresh cell: flag false, null slot, empty heap, allocator at address 1. -/
def CellSt.fresh (T : Type) : CellSt T :=
  { inited := false, data := 0, nextAddr := 1, ctorRuns := 0, heap := [] }

/-- Result of one sequential call of the generated deref body. `ret = some p`
means the call returned the reference `&*data` as the pointer `p`; `ret = none`
means the constructor expression failed and the failure propagated out of the
call. `flagOps` is the ordered trace of atomic operations performed on the
`INITIALIZED` flag, `ctorRan` whether the constructor expression was
evaluated during this call. -/
structure CallResult (T : Type) where
  cell : CellSt T
  ret : Option Nat
  flagOps : List FlagOp
  ctorRan : Bool
deriving DecidableEq, Repr

/-- One sequential call of the generated deref body, straight from the source:
perform `compare_and_swap(false, true, SeqCst)` on the flag; if it observed
`false`, evaluate the constructor (`ctor = none` models a constructor whose
evaluation fails), box the result at a fresh address and store the pointer
into `data`; then read `data` and return `&*data`. -/
def derefCall {T : Type} (c : CellSt T) (ctor : Option T) : CallResult T :=
  if c.inited then
    { cell := c, ret := some c.data, flagOps := [FlagOp.cas true], ctorRan := false }
  else
    match ctor with
    | some v =>
      { cell := { inited := true
                  data := c.nextAddr
                  nextAddr := c.nextAddr + 1
                  ctorRuns := c.ctorRuns + 1
                  heap := (c.nextAddr, v) :: c.heap }
        ret := some c.nextAddr
        flagOps := [FlagOp.cas false]
        ctorRan := true }
    | none =>
      { cell := { c with inited := true, ctorRuns := c.ctorRuns + 1 },
        ret := none, flagOps := [FlagOp.cas false], ctorRan := true }

/-- Phase of one thread executing the deref body: `start` = about to perform
the CAS (line 104); `construct` = its CAS observed false, about to evaluate
the constructor and publish the box into `data` (line 106); `read` = about to
read `data` (line 108); `done` = returned; `failed` = its constructor
evaluation failed and the failure propagated. -/
inductive Phase where
  | start
  | construct
  | read
  | done
  | failed
deriving DecidableEq, Repr

/-- One thread: its phase, whether its CAS observed false (`winner`), and,
once done, the pointer value its `&*data` read produced (`retPtr`). -/
structure Thread where
  phase : Phase
  winner : Bool
  retPtr : Nat
deriving DecidableEq, Repr

/-- The fresh thread state. -/
def Thread.fresh : Thread := { phase := Phase.start, winner := false, retPtr := 0 }

/-- Global state: the shared cell plus the threads. -/
structure GState (T : Type) where
  cell : CellSt T
  threads : List Thread
deriving DecidableEq, Repr

/-- Initial global state: a fresh cell and `n` threads about to call deref. -/
def initG (T : Type) (n : Nat) : GState T :=
  { cell := CellSt.fresh T, threads := List.replicate n Thread.fresh }

/-- One small step of thread `i` (identity if `i` is out of range or the
thread already finished).  The CAS, the construct-and-publish, and the slot
read are three separate steps, exactly as the three statements appear in the
source; `ctor` is the constructor expression, `none` modelling one whose
evaluation fails. -/
def stepThread {T : Type} (ctor : Option T) (s : GState T) (i : Nat) : GState T :=
  match s.threads[i]? with
  | none => s
  | some t =>
    match t.phase with
    | Phase.start =>
      if s.cell.inited then
        { cell := s.cell,
          threads := s.threads.set i { t with phase := Phase.read, winner := false } }
      else
        { cell := { s.cell with inited := true },
          threads := s.threads.set i { t with phase := Phase.construct, winner := true } }
    | Phase.construct =>
      match ctor with
      | some v =>
        { cell := { s.cell with
              data := s.cell.nextAddr
              nextAddr := s.cell.nextAddr + 1
              ctorRuns := s.cell.ctorRuns + 1
              heap := (s.cell.nextAddr, v) :: s.cell.heap }
          threads := s.threads.set i { t with phase := Phase.read } }
      | none =>
        { cell := { s.cell with ctorRuns := s.cell.ctorRuns + 1 },
          threads := s.threads.set i { t with phase := Phase.failed } }
    | Phase.read =>
      { cell := s.cell,
        threads := s.threads.set i { t with phase := Phase.done, retPtr := s.cell.data } }
    | Phase.done => s
    | Phase.failed => s

/-- The interleaving step relation: some thread takes a step. -/
def Step {T : Type} (ctor : Option T) (s s' : GState T) : Prop :=
  ∃ i : Nat, s' = stepThread ctor s i

/-- Finitely many interleaved steps. -/
def Steps {T : Type} (ctor : Option T) : GState T → GState T → Prop :=
  Relation.ReflTransGen (Step ctor)

/-- Run a concrete schedule (list of thread indices), for concrete executions. -/
def runG {T : Type} (ctor : Option T) (s : GState T) : List Nat → GState T
  | [] => s
  | i :: rest => runG ctor (stepThread ctor s i) rest

theorem steps_runG {T : Type} (ctor : Option T) (s : GState T) (l : List Nat) :
    Steps ctor s (runG ctor s l) := by
  induction l generalizing s with
  | nil => exact Relation.ReflTransGen.refl
  | cons i rest ih => exact Relation.ReflTransGen.head ⟨i, rfl⟩ (ih _)

/-- A monomorphic element type of a generated cell, as the type checker sees
it: `sync` records whether the type fulfils the `Sync` kind (trait). -/
structure RustType where
  sync : Bool
deriving DecidableEq, Repr

/-- `fn require_sync<T: Sync>(_: &T) { }` (line 98): the call type-checks
exactly when the element type fulfils the `Sync` bound. -/
def require_sync_accepts (T : RustType) : Bool := T.sync

/-- The deref body unconditionally contains `require_sync(static_ref)`
(line 109), so the macro expansion type-checks iff that call does. -/
def expansion_typechecks (T : RustType) : Bool := require_sync_accepts T

/-- The runtime body of `require_sync` is `{ }`: it performs nothing, so the
`Sync` constraint has no runtime component at all. -/
def require_sync_body : Unit := ()

/-- A cell with one successful sequential call behind it: the steady state. -/
def seqCell1 : CellSt Nat := (derefCall (CellSt.fresh Nat) (some 42)).cell

end LazyStaticCore

namespace LazyStaticCore

/-- C3: the claim says a call on an initialized cell performs only a single
atomic load of the flag and no compare-and-swap.  False: on the initialized
cell `seqCell1` the call's atomic-operation trace is exactly one
compare-and-swap (observing true) and contains no load. -/
theorem steady_state_cas_counterexample :
    seqCell1.inited = true ∧
    (derefCall seqCell1 (some 42)).flagOps = [FlagOp.cas true] ∧
    FlagOp.cas true ∈ (derefCall seqCell1 (some 42)).flagOps ∧
    (∀ b, FlagOp.load b ∉ (derefCall seqCell1 (some 42)).flagOps) := by
  decide

/-- C3 (amended): once the flag is `Initialized`, every subsequent call
performs exactly one atomic flag operation — a compare-and-swap that observes
true — evaluates no constructor, and returns the slot pointer. -/
theorem steady_state_single_cas {T : Type} (c : CellSt T) (ctor : Option T)
    (h : c.inited = true) :
    (derefCall c ctor).flagOps = [FlagOp.cas true] ∧
    (derefCall c ctor).ctorRan = false ∧
    (derefCall c ctor).ret = some c.data := by
  simp [derefCall, h]

/-- Witness for `steady_state_single_cas` at the concrete cell `seqCell1`. -/
theorem steady_state_single_cas_witness :
    (derefCall seqCell1 (some 7)).flagOps = [FlagOp.cas true] ∧
    (derefCall seqCell1 (some 7)).ctorRan = false ∧
    (derefCall seqCell1 (some 7)).ret = some seqCell1.data :=
  steady_state_single_cas seqCell1 (some 7) (by decide)

/-- C6: a call on a cell whose flag is already set leaves the whole cell state
unchanged — the slot is not reassigned, the heap not touched, the constructor
not evaluated. -/
theorem reads_idempotent {T : Type} (c : CellSt T) (ctor : Option T)
    (h : c.inited = true) :
    (derefCall c ctor).cell = c ∧ (derefCall c ctor).ctorRan = false := by
  simp [derefCall, h]

/-- Witness for `reads_idempotent` at the concrete cell `seqCell1`. -/
theorem reads_idempotent_witness :
    (derefCall seqCell1 (some 9)).cell = seqCell1 ∧
    (derefCall seqCell1 (some 9)).ctorRan = false :=
  reads_idempotent seqCell1 (some 9) (by decide)

/-- C8: if the constructor fails on a fresh cell, the failure propagates out
of exactly that call (`ret = none` after the constructor was evaluated), and
any later call returns normally without evaluating a constructor: the cell
neither catches, retries, nor surfaces the failure elsewhere. -/
theorem ctor_failure_propagates {T : Type} (c : CellSt T)
    (h : c.inited = false) :
    (derefCall c none).ret = none ∧
    (derefCall c none).ctorRan = true ∧
    ∀ ctor' : Option T,
      (derefCall (derefCall c none).cell ctor').ret ≠ none ∧
      (derefCall (derefCall c none).cell ctor').ctorRan = false := by
  simp [derefCall, h]

/-- Witness for `ctor_failure_propagates` on a fresh cell over `Nat`. -/
theorem ctor_failure_propagates_witness :
    (derefCall (CellSt.fresh Nat) none).ret = none ∧
    (derefCall (derefCall (CellSt.fresh Nat) none).cell (some 5)).ret ≠ none ∧
    (derefCall (derefCall (CellSt.fresh Nat) none).cell (some 5)).ctorRan = false :=
  ⟨(ctor_failure_propagates (CellSt.fresh Nat) rfl).1,
   ((ctor_failure_propagates (CellSt.fresh Nat) rfl).2.2 (some 5)).1,
   ((ctor_failure_propagates (CellSt.fresh Nat) rfl).2.2 (some 5)).2⟩

/-- C10: the flag is written by the CAS before the constructor expression is
evaluated, so a failing constructor leaves the flag permanently set with the
slot still null: no later call re-attempts construction and every later call
returns the null pointer 0. -/
theorem flag_set_before_ctor_eval {T : Type} (c : CellSt T)
    (h : c.inited = false) (hd : c.data = 0) :
    (derefCall c none).cell.inited = true ∧
    (derefCall c none).cell.data = 0 ∧
    ∀ ctor' : Option T,
      (derefCall (derefCall c none).cell ctor').ctorRan = false ∧
      (derefCall (derefCall c none).cell ctor').ret = some 0 := by
  simp [derefCall, h, hd]

/-- Witness for `flag_set_before_ctor_eval` on a fresh cell over `Nat`. -/
theorem flag_set_before_ctor_eval_witness :
    (derefCall (CellSt.fresh Nat) none).cell.inited = true ∧
    (derefCall (CellSt.fresh Nat) none).cell.data = 0 ∧
    (derefCall (derefCall (CellSt.fresh Nat) none).cell (some 3)).ctorRan = false ∧
    (derefCall (derefCall (CellSt.fresh Nat) none).cell (some 3)).ret = some 0 :=
  ⟨(flag_set_before_ctor_eval (CellSt.fresh Nat) rfl rfl).1,
   (flag_set_before_ctor_eval (CellSt.fresh Nat) rfl rfl).2.1,
   ((flag_set_before_ctor_eval (CellSt.fresh Nat) rfl rfl).2.2 (some 3)).1,
   ((flag_set_before_ctor_eval (CellSt.fresh Nat) rfl rfl).2.2 (some 3)).2⟩

/-- C9: a cell over an element type lacking the `Sync` capability is rejected
by the type checker (the expansion does not type-check), and the `Sync`
constraint has no runtime body at all — it is purely static. -/
theorem non_sync_rejected_statically (T : RustType) (h : T.sync = false) :
    expansion_typechecks T = false ∧ require_sync_body = () := by
  simp [expansion_typechecks, require_sync_accepts, h, require_sync_body]

/-- Witness for `non_sync_rejected_statically` at the non-Sync type. -/
theorem non_sync_rejected_statically_witness :
    expansion_typechecks { sync := false } = false ∧ require_sync_body = () :=
  non_sync_rejected_statically { sync := false } rfl

/-- Case split for an optional lookup in a list after a `set`. -/
theorem getElem?_set_cases {α : Type} {l : List α} {i j : Nat} {a b : α}
    (h : (l.set i a)[j]? = some b) :
    (i = j ∧ b = a) ∨ (i ≠ j ∧ l[j]? = some b) := by
  by_cases hij : i = j
  · subst hij
    have hlt : i < l.length := by
      have hlen := (List.getElem?_eq_some.mp h).1
      simpa using hlen
    rw [List.getElem?_set_eq_of_lt a hlt] at h
    exact Or.inl ⟨rfl, (Option.some.inj h).symm⟩
  · exact Or.inr ⟨hij, by rwa [List.getElem?_set_ne hij] at h⟩

/-- The interleaving invariant of the generated deref body.  `fresh_all`:
while the flag is unset, nothing has happened at all.  `winner_unique`: at
most one thread's CAS ever observes false.  `runs_once`: either the
constructor has never run (and the slot is still null) or it has run exactly
once and nobody is about to run it again.  `winner_ran`: a winner past its
construct step accounts for the one constructor run.  The remaining fields
tie phases, the winner role and the flag together. -/
structure Inv {T : Type} (s : GState T) : Prop where
  fresh_all : s.cell.inited = false →
    s.cell.ctorRuns = 0 ∧ s.cell.data = 0 ∧
    ∀ (j : Nat) (t : Thread), s.threads[j]? = some t →
      t.phase = Phase.start ∧ t.winner = false
  winner_unique : ∀ (i j : Nat) (t₁ t₂ : Thread),
    s.threads[i]? = some t₁ → s.threads[j]? = some t₂ →
    t₁.winner = true → t₂.winner = true → i = j
  runs_once : (s.cell.ctorRuns = 0 ∧ s.cell.data = 0) ∨
    (s.cell.ctorRuns = 1 ∧ ∀ (j : Nat) (t : Thread),
      s.threads[j]? = some t → t.phase ≠ Phase.construct)
  winner_ran : ∀ (j : Nat) (t : Thread), s.threads[j]? = some t → t.winner = true →
    t.phase ≠ Phase.start → t.phase ≠ Phase.construct → s.cell.ctorRuns = 1
  construct_winner : ∀ (j : Nat) (t : Thread), s.threads[j]? = some t →
    t.phase = Phase.construct → t.winner = true
  winner_no_start : ∀ (j : Nat) (t : Thread), s.threads[j]? = some t →
    t.winner = true → t.phase ≠ Phase.start
  inited_winner : s.cell.inited = true →
    ∃ (j : Nat) (t : Thread), s.threads[j]? = some t ∧ t.winner = true

/-- The initial state satisfies the invariant. -/
theorem inv_init (T : Type) (n : Nat) : Inv (initG T n) := by
  have hrep : ∀ (j : Nat) (t : Thread),
      (List.replicate n Thread.fresh)[j]? = some t → t = Thread.fresh := by
    intro j t h
    have := List.getElem?_mem h
    exact (List.eq_of_mem_replicate this)
  constructor
  · intro _
    refine ⟨rfl, rfl, ?_⟩
    intro j t h
    rw [hrep j t h]
    exact ⟨rfl, rfl⟩
  · intro i j t₁ t₂ h1 h2 hw1 hw2
    rw [hrep i t₁ h1] at hw1
    exact Bool.noConfusion hw1
  · exact Or.inl ⟨rfl, rfl⟩
  · intro j t h hw _ _
    rw [hrep j t h] at hw
    exact Bool.noConfusion hw
  · intro j t h hc
    rw [hrep j t h] at hc
    exact Phase.noConfusion hc
  · intro j t h hw
    rw [hrep j t h] at hw
    exact Bool.noConfusion hw
  · intro h
    exact Bool.noConfusion h

/-- Invariant preservation: CAS step of a thread that observes the flag
already set (a loser). -/
theorem inv_step_loser {T : Type} (s : GState T) (i : Nat) (t : Thread)
    (hInv : Inv s) (hcase : s.threads[i]? = some t) (hph : t.phase = Phase.start)
    (hinit : s.cell.inited = true) :
    Inv { cell := s.cell,
          threads := s.threads.set i { t with phase := Phase.read, winner := false } } := by
  constructor
  · intro h
    rw [hinit] at h
    exact Bool.noConfusion h
  · intro i' j' t₁ t₂ h1 h2 hw1 hw2
    rcases getElem?_set_cases h1 with ⟨hii, ht1⟩ | ⟨hne1, h1'⟩
    · rw [ht1] at hw1
      exact Bool.noConfusion hw1
    · rcases getElem?_set_cases h2 with ⟨hjj, ht2⟩ | ⟨hne2, h2'⟩
      · rw [ht2] at hw2
        exact Bool.noConfusion hw2
      · exact hInv.winner_unique i' j' t₁ t₂ h1' h2' hw1 hw2
  · rcases hInv.runs_once with h0 | ⟨h1, hno⟩
    · exact Or.inl h0
    · refine Or.inr ⟨h1, ?_⟩
      intro j' t'' hj
      rcases getElem?_set_cases hj with ⟨_, ht''⟩ | ⟨_, hj'⟩
      · rw [ht'']
        exact fun hc => Phase.noConfusion hc
      · exact hno j' t'' hj'
  · intro j' t'' hj hw hns hnc
    rcases getElem?_set_cases hj with ⟨_, ht''⟩ | ⟨_, hj'⟩
    · rw [ht''] at hw
      exact Bool.noConfusion hw
    · exact hInv.winner_ran j' t'' hj' hw hns hnc
  · intro j' t'' hj hc
    rcases getElem?_set_cases hj with ⟨_, ht''⟩ | ⟨_, hj'⟩
    · rw [ht''] at hc
      exact Phase.noConfusion hc
    · exact hInv.construct_winner j' t'' hj' hc
  · intro j' t'' hj hw
    rcases getElem?_set_cases hj with ⟨_, ht''⟩ | ⟨_, hj'⟩
    · rw [ht''] at hw
      exact Bool.noConfusion hw
    · exact hInv.winner_no_start j' t'' hj' hw
  · intro _
    obtain ⟨k, u, hk, hw⟩ := hInv.inited_winner hinit
    have hki : ¬ i = k := by
      intro he
      rw [← he, hcase] at hk
      have htu : t = u := Option.some.inj hk
      rw [← htu] at hw
      exact hInv.winner_no_start i t hcase hw hph
    exact ⟨k, u, by rw [List.getElem?_set_ne hki]; exact hk, hw⟩

/-- Invariant preservation: CAS step of the thread that observes the flag
unset (the winner). -/
theorem inv_step_winner {T : Type} (s : GState T) (i : Nat) (t : Thread)
    (hInv : Inv s) (hcase : s.threads[i]? = some t) (_hph : t.phase = Phase.start)
    (hinit : s.cell.inited = false) :
    Inv { cell := { s.cell with inited := true },
          threads := s.threads.set i { t with phase := Phase.construct, winner := true } } := by
  obtain ⟨hc0, hd0, hall⟩ := hInv.fresh_all hinit
  have hlt : i < s.threads.length := (List.getElem?_eq_some.mp hcase).1
  constructor
  · intro h
    exact Bool.noConfusion h
  · intro i' j' t₁ t₂ h1 h2 hw1 hw2
    rcases getElem?_set_cases h1 with ⟨hii, _⟩ | ⟨hne1, h1'⟩
    · rcases getElem?_set_cases h2 with ⟨hjj, _⟩ | ⟨hne2, h2'⟩
      · rw [← hii, ← hjj]
      · rw [(hall j' t₂ h2').2] at hw2
        exact Bool.noConfusion hw2
    · rw [(hall i' t₁ h1').2] at hw1
      exact Bool.noConfusion hw1
  · exact Or.inl ⟨hc0, hd0⟩
  · intro j' t'' hj hw hns hnc
    rcases getElem?_set_cases hj with ⟨_, ht''⟩ | ⟨_, hj'⟩
    · rw [ht''] at hnc
      exact absurd rfl hnc
    · rw [(hall j' t'' hj').2] at hw
      exact Bool.noConfusion hw
  · intro j' t'' hj hc
    rcases getElem?_set_cases hj with ⟨_, ht''⟩ | ⟨_, hj'⟩
    · rw [ht'']
    · rw [(hall j' t'' hj').1] at hc
      exact Phase.noConfusion hc
  · intro j' t'' hj hw
    rcases getElem?_set_cases hj with ⟨_, ht''⟩ | ⟨_, hj'⟩
    · rw [ht'']
      exact fun hs => Phase.noConfusion hs
    · rw [(hall j' t'' hj').2] at hw
      exact Bool.noConfusion hw
  · intro _
    exact ⟨i, { t with phase := Phase.construct, winner := true },
      List.getElem?_set_eq_of_lt _ hlt, rfl⟩

/-- Facts available when a thread is in the construct phase: it is the
winner, the flag is already set, and the constructor has not yet run. -/
theorem construct_phase_facts {T : Type} (s : GState T) (i : Nat) (t : Thread)
    (hInv : Inv s) (hcase : s.threads[i]? = some t)
    (hph : t.phase = Phase.construct) :
    t.winner = true ∧ s.cell.inited = true ∧
    s.cell.ctorRuns = 0 ∧ s.cell.data = 0 := by
  have hw : t.winner = true := hInv.construct_winner i t hcase hph
  have hinit : s.cell.inited = true := by
    cases hI : s.cell.inited
    · have hs := ((hInv.fresh_all hI).2.2 i t hcase).1
      rw [hph] at hs
      exact Phase.noConfusion hs
    · rfl
  have hc0 : s.cell.ctorRuns = 0 ∧ s.cell.data = 0 := by
    rcases hInv.runs_once with h | ⟨_, hno⟩
    · exact h
    · exact absurd hph (hno i t hcase)
  exact ⟨hw, hinit, hc0.1, hc0.2⟩

/-- Invariant preservation, common thread part after the winner has left the
construct phase for `ph` (`read` on success, `failed` on constructor
failure), over an arbitrary new cell value `c` that has `ctorRuns = 1` and
the old flag. -/
theorem inv_after_construct {T : Type} (s : GState T) (i : Nat) (t : Thread)
    (hInv : Inv s) (hcase : s.threads[i]? = some t)
    (hph : t.phase = Phase.construct) (c : CellSt T)
    (hcr : c.ctorRuns = 1) (hci : c.inited = s.cell.inited) (ph : Phase)
    (hnots : ph ≠ Phase.start) (hnotc : ph ≠ Phase.construct) :
    Inv { cell := c, threads := s.threads.set i { t with phase := ph } } := by
  obtain ⟨hw, hinit, _, _⟩ := construct_phase_facts s i t hInv hcase hph
  have hlt : i < s.threads.length := (List.getElem?_eq_some.mp hcase).1
  constructor
  · intro h
    rw [hci, hinit] at h
    exact Bool.noConfusion h
  · intro i' j' t₁ t₂ h1 h2 hw1 hw2
    have key : ∀ (k : Nat) (u : Thread),
        (s.threads.set i { t with phase := ph })[k]? = some u → u.winner = true →
        ∃ w : Thread, s.threads[k]? = some w ∧ w.winner = true := by
      intro k u hk hu
      rcases getElem?_set_cases hk with ⟨hik, _⟩ | ⟨_, hk'⟩
      · exact ⟨t, by rw [← hik]; exact hcase, hw⟩
      · exact ⟨u, hk', hu⟩
    obtain ⟨w1, hw1', hww1⟩ := key i' t₁ h1 hw1
    obtain ⟨w2, hw2', hww2⟩ := key j' t₂ h2 hw2
    exact hInv.winner_unique i' j' w1 w2 hw1' hw2' hww1 hww2
  · refine Or.inr ⟨hcr, ?_⟩
    intro j' t'' hj
    rcases getElem?_set_cases hj with ⟨_, ht''⟩ | ⟨hne, hj'⟩
    · rw [ht'']
      exact hnotc
    · intro hc'
      have hw'' : t''.winner = true := hInv.construct_winner j' t'' hj' hc'
      exact hne (hInv.winner_unique i j' t t'' hcase hj' hw hw'')
  · intro j' t'' hj _ _ _
    exact hcr
  · intro j' t'' hj hc'
    rcases getElem?_set_cases hj with ⟨_, ht''⟩ | ⟨_, hj'⟩
    · rw [ht''] at hc'
      exact absurd hc' hnotc
    · exact hInv.construct_winner j' t'' hj' hc'
  · intro j' t'' hj hw''
    rcases getElem?_set_cases hj with ⟨_, ht''⟩ | ⟨_, hj'⟩
    · rw [ht'']
      exact hnots
    · exact hInv.winner_no_start j' t'' hj' hw''
  · intro _
    exact ⟨i, { t with phase := ph }, List.getElem?_set_eq_of_lt _ hlt, hw⟩

/-- Invariant preservation: the read step (any thread moving from `read` to
`done`, recording the slot pointer it read). -/
theorem inv_step_read {T : Type} (s : GState T) (i : Nat) (t : Thread)
    (hInv : Inv s) (hcase : s.threads[i]? = some t)
    (hph : t.phase = Phase.read) :
    Inv { cell := s.cell,
          threads := s.threads.set i
            { t with phase := Phase.done, retPtr := s.cell.data } } := by
  have hlt : i < s.threads.length := (List.getElem?_eq_some.mp hcase).1
  have hnostart : s.cell.inited = false → False := by
    intro h
    have hs := ((hInv.fresh_all h).2.2 i t hcase).1
    rw [hph] at hs
    exact Phase.noConfusion hs
  constructor
  · intro h
    exact absurd h hnostart
  · intro i' j' t₁ t₂ h1 h2 hw1 hw2
    have key : ∀ (k : Nat) (u : Thread),
        (s.threads.set i { t with phase := Phase.done, retPtr := s.cell.data })[k]? = some u →
        u.winner = true →
        ∃ w : Thread, s.threads[k]? = some w ∧ w.winner = true := by
      intro k u hk hu
      rcases getElem?_set_cases hk with ⟨hik, ht''⟩ | ⟨_, hk'⟩
      · refine ⟨t, by rw [← hik]; exact hcase, ?_⟩
        rw [ht''] at hu
        exact hu
      · exact ⟨u, hk', hu⟩
    obtain ⟨w1, hw1', hww1⟩ := key i' t₁ h1 hw1
    obtain ⟨w2, hw2', hww2⟩ := key j' t₂ h2 hw2
    exact hInv.winner_unique i' j' w1 w2 hw1' hw2' hww1 hww2
  · rcases hInv.runs_once with h0 | ⟨h1, hno⟩
    · exact Or.inl h0
    · refine Or.inr ⟨h1, ?_⟩
      intro j' t'' hj
      rcases getElem?_set_cases hj with ⟨_, ht''⟩ | ⟨_, hj'⟩
      · rw [ht'']
        exact fun hc => Phase.noConfusion hc
      · exact hno j' t'' hj'
  · intro j' t'' hj hw'' hns hnc
    rcases getElem?_set_cases hj with ⟨_, ht''⟩ | ⟨_, hj'⟩
    · rw [ht''] at hw''
      exact hInv.winner_ran i t hcase hw''
        (by rw [hph]; exact fun hs => Phase.noConfusion hs)
        (by rw [hph]; exact fun hs => Phase.noConfusion hs)
    · exact hInv.winner_ran j' t'' hj' hw'' hns hnc
  · intro j' t'' hj hc'
    rcases getElem?_set_cases hj with ⟨_, ht''⟩ | ⟨_, hj'⟩
    · rw [ht''] at hc'
      exact Phase.noConfusion hc'
    · exact hInv.construct_winner j' t'' hj' hc'
  · intro j' t'' hj hw''
    rcases getElem?_set_cases hj with ⟨_, ht''⟩ | ⟨_, hj'⟩
    · rw [ht'']
      exact fun hs => Phase.noConfusion hs
    · exact hInv.winner_no_start j' t'' hj' hw''
  · intro hi
    obtain ⟨k, u, hk, hwu⟩ := hInv.inited_winner hi
    by_cases hik : i = k
    · refine ⟨i, { t with phase := Phase.done, retPtr := s.cell.data },
        List.getElem?_set_eq_of_lt _ hlt, ?_⟩
      rw [← hik, hcase] at hk
      have htu : t = u := Option.some.inj hk
      rw [htu]
      exact hwu
    · exact ⟨k, u, by rw [List.getElem?_set_ne hik]; exact hk, hwu⟩

/-- Invariant preservation: any single step preserves the invariant. -/
theorem inv_step {T : Type} (ctor : Option T) (s : GState T) (i : Nat)
    (hInv : Inv s) : Inv (stepThread ctor s i) := by
  cases hcase : s.threads[i]? with
  | none =>
    simp only [stepThread, hcase]
    exact hInv
  | some t =>
    cases hph : t.phase with
    | start =>
      cases hinit : s.cell.inited with
      | false =>
        simp only [stepThread, hcase, hph, hinit, Bool.false_eq_true, if_false]
        exact inv_step_winner s i t hInv hcase hph hinit
      | true =>
        simp only [stepThread, hcase, hph, hinit, if_true]
        exact inv_step_loser s i t hInv hcase hph hinit
    | construct =>
      obtain ⟨_, hinit, hc0, _⟩ := construct_phase_facts s i t hInv hcase hph
      cases ctor with
      | some v =>
        simp only [stepThread, hcase, hph]
        exact inv_after_construct s i t hInv hcase hph
          { s.cell with
            data := s.cell.nextAddr
            nextAddr := s.cell.nextAddr + 1
            ctorRuns := s.cell.ctorRuns + 1
            heap := (s.cell.nextAddr, v) :: s.cell.heap }
          (by simp [hc0]) rfl
          Phase.read (fun h => Phase.noConfusion h) (fun h => Phase.noConfusion h)
      | none =>
        simp only [stepThread, hcase, hph]
        exact inv_after_construct s i t hInv hcase hph
          { s.cell with ctorRuns := s.cell.ctorRuns + 1 }
          (by simp [hc0]) rfl
          Phase.failed (fun h => Phase.noConfusion h) (fun h => Phase.noConfusion h)
    | read =>
      simp only [stepThread, hcase, hph]
      exact inv_step_read s i t hInv hcase hph
    | done =>
      simp only [stepThread, hcase, hph]
      exact hInv
    | failed =>
      simp only [stepThread, hcase, hph]
      exact hInv

/-- Invariant preservation along any finite interleaving. -/
theorem inv_steps {T : Type} (ctor : Option T) (s s' : GState T)
    (h : Steps ctor s s') (hInv : Inv s) : Inv s' := by
  induction h with
  | refl => exact hInv
  | tail _ hstep ih =>
    obtain ⟨i, rfl⟩ := hstep
    exact inv_step ctor _ i ih

/-- Once the slot is nonnull, a single step changes neither the slot pointer
nor the heap. -/
theorem data_heap_stable_step {T : Type} (ctor : Option T) (s : GState T)
    (i : Nat) (hInv : Inv s) (hd : s.cell.data ≠ 0) :
    (stepThread ctor s i).cell.data = s.cell.data ∧
    (stepThread ctor s i).cell.heap = s.cell.heap := by
  cases hcase : s.threads[i]? with
  | none => simp [stepThread, hcase]
  | some t =>
    cases hph : t.phase with
    | start =>
      cases hinit : s.cell.inited with
      | false => exact absurd (hInv.fresh_all hinit).2.1 hd
      | true => simp [stepThread, hcase, hph, hinit]
    | construct =>
      exfalso
      rcases hInv.runs_once with ⟨_, h0⟩ | ⟨_, hno⟩
      · exact hd h0
      · exact hno i t hcase hph
    | read => simp [stepThread, hcase, hph]
    | done => simp [stepThread, hcase, hph]
    | failed => simp [stepThread, hcase, hph]

/-- A single step never clears the flag. -/
theorem inited_mono_step {T : Type} (ctor : Option T) (s : GState T) (i : Nat)
    (hi : s.cell.inited = true) : (stepThread ctor s i).cell.inited = true := by
  cases hcase : s.threads[i]? with
  | none => simpa [stepThread, hcase] using hi
  | some t =>
    cases hph : t.phase with
    | start => simp [stepThread, hcase, hph, hi]
    | construct => cases ctor <;> simpa [stepThread, hcase, hph] using hi
    | read => simpa [stepThread, hcase, hph] using hi
    | done => simpa [stepThread, hcase, hph] using hi
    | failed => simpa [stepThread, hcase, hph] using hi

/-- C1: in every interleaving of any number of callers on a fresh cell, the
constructor expression runs at most once, at most one thread's CAS ever
observes false, and once every caller has finished (and there is at least
one) it has run exactly once. -/
theorem constructor_runs_once {T : Type} (ctor : Option T) (n : Nat)
    (s : GState T) (h : Steps ctor (initG T n) s) :
    s.cell.ctorRuns ≤ 1 ∧
    (∀ (i j : Nat) (t₁ t₂ : Thread), s.threads[i]? = some t₁ →
      s.threads[j]? = some t₂ → t₁.winner = true → t₂.winner = true → i = j) ∧
    ((∀ (j : Nat) (t : Thread), s.threads[j]? = some t →
        t.phase = Phase.done ∨ t.phase = Phase.failed) →
      s.threads ≠ [] → s.cell.ctorRuns = 1) := by
  have hInv : Inv s := inv_steps ctor _ s h (inv_init T n)
  refine ⟨?_, hInv.winner_unique, ?_⟩
  · rcases hInv.runs_once with ⟨h0, _⟩ | ⟨h1, _⟩
    · rw [h0]; exact Nat.zero_le 1
    · rw [h1]
  · intro hfin hne
    obtain ⟨t0, ht0⟩ : ∃ t0 : Thread, s.threads[0]? = some t0 := by
      cases hl : s.threads with
      | nil => exact absurd hl hne
      | cons a l => exact ⟨a, by simp [hl]⟩
    have hinit : s.cell.inited = true := by
      cases hI : s.cell.inited
      · exfalso
        have hs0 := ((hInv.fresh_all hI).2.2 0 t0 ht0).1
        rcases hfin 0 t0 ht0 with hd | hf
        · rw [hs0] at hd; exact Phase.noConfusion hd
        · rw [hs0] at hf; exact Phase.noConfusion hf
      · rfl
    obtain ⟨k, u, hk, hw⟩ := hInv.inited_winner hinit
    rcases hfin k u hk with hd | hf
    · exact hInv.winner_ran k u hk hw (by rw [hd]; exact fun h => Phase.noConfusion h)
        (by rw [hd]; exact fun h => Phase.noConfusion h)
    · exact hInv.winner_ran k u hk hw (by rw [hf]; exact fun h => Phase.noConfusion h)
        (by rw [hf]; exact fun h => Phase.noConfusion h)

/-- One caller on a fresh cell run to completion: CAS, construct, read. -/
def fullRun1 : GState Nat := runG (some 42) (initG Nat 1) [0, 0, 0]

/-- Witness for `constructor_runs_once`: the completed one-thread execution
has run the constructor exactly once. -/
theorem constructor_runs_once_witness :
    fullRun1.cell.ctorRuns ≤ 1 ∧ fullRun1.cell.ctorRuns = 1 :=
  ⟨(constructor_runs_once (some 42) 1 fullRun1 (steps_runG _ _ _)).1,
   (constructor_runs_once (some 42) 1 fullRun1 (steps_runG _ _ _)).2.2
     (by
       intro j t hj
       have hl : fullRun1.threads =
           [{ phase := Phase.done, winner := true, retPtr := 1 }] := by decide
       rw [hl] at hj
       cases j with
       | zero =>
         rw [← Option.some.inj hj]
         exact Or.inl rfl
       | succ m => exact Option.noConfusion hj)
     (by decide)⟩

/-- C2: once the slot holds a published pointer, every later state of every
interleaving shows the same slot pointer and the same pointed-to boxed value:
any two slot reads on the initialized cell return the same reference to the
same value. -/
theorem referential_stability {T : Type} (ctor : Option T) (n : Nat)
    (s s' : GState T) (hreach : Steps ctor (initG T n) s)
    (hss : Steps ctor s s') (hd : s.cell.data ≠ 0) :
    s'.cell.data = s.cell.data ∧
    List.lookup s'.cell.data s'.cell.heap = List.lookup s.cell.data s.cell.heap := by
  have hInv : Inv s := inv_steps ctor _ s hreach (inv_init T n)
  have main : Inv s' ∧ s'.cell.data = s.cell.data ∧ s'.cell.heap = s.cell.heap := by
    induction hss with
    | refl => exact ⟨hInv, rfl, rfl⟩
    | tail _ hstep ih =>
      obtain ⟨i, rfl⟩ := hstep
      obtain ⟨ihInv, ihd, ihh⟩ := ih
      have hd' := ihd.trans_ne hd
      obtain ⟨e1, e2⟩ := data_heap_stable_step ctor _ i ihInv hd'
      exact ⟨inv_step ctor _ i ihInv, e1.trans ihd, e2.trans ihh⟩
  obtain ⟨_, h1, h2⟩ := main
  refine ⟨h1, ?_⟩
  rw [h1, h2]

/-- The one-thread execution after CAS and construct: slot published. -/
def pubRun1 : GState Nat := runG (some 42) (initG Nat 1) [0, 0]

/-- Witness for `referential_stability`: from the published state, one more
step (the read) changes neither the pointer nor the value. -/
theorem referential_stability_witness :
    (runG (some 42) pubRun1 [0]).cell.data = pubRun1.cell.data ∧
    List.lookup (runG (some 42) pubRun1 [0]).cell.data
        (runG (some 42) pubRun1 [0]).cell.heap =
      List.lookup pubRun1.cell.data pubRun1.cell.heap :=
  referential_stability (some 42) 1 pubRun1 (runG (some 42) pubRun1 [0])
    (steps_runG _ _ _) (steps_runG _ _ _) (by decide)

/-- C5: the flag transitions one way only: once it is observed set, it stays
set in every later state of every interleaving. -/
theorem flag_monotone {T : Type} (ctor : Option T) (s s' : GState T)
    (h : Steps ctor s s') (hi : s.cell.inited = true) :
    s'.cell.inited = true := by
  induction h with
  | refl => exact hi
  | tail _ hstep ih =>
    obtain ⟨i, rfl⟩ := hstep
    exact inited_mono_step ctor _ i ih

/-- The one-thread execution after just the CAS: flag set, nothing else. -/
def casRun1 : GState Nat := runG (some 42) (initG Nat 1) [0]

/-- Witness for `flag_monotone`: the flag stays set over two more steps. -/
theorem flag_monotone_witness :
    (runG (some 42) casRun1 [0, 0]).cell.inited = true :=
  flag_monotone (some 42) casRun1 (runG (some 42) casRun1 [0, 0])
    (steps_runG _ _ _) (by decide)

/-- Two threads on a fresh cell; schedule: thread 0 does its CAS (wins),
thread 1 does its CAS (loses), thread 1 reads the slot — all before thread 0
has run its construct step. -/
def loserFirstTrace : GState Nat := runG (some 42) (initG Nat 2) [0, 1, 1]

/-- C7: the winner's publication of the constructed value is NOT ordered
before a loser's read of the slot.  In the concrete interleaving
`loserFirstTrace`, the losing thread 1 finishes having read the still-null
slot (pointer 0), while the flag is already set; when the winner finally
publishes (one more step of thread 0), the cell's slot is 1, and address 0 is
not an allocated box — thread 1 has dereferenced a null pointer, not a fully
constructed value. -/
theorem loser_reads_null_slot :
    loserFirstTrace.threads[1]? =
      some { phase := Phase.done, winner := false, retPtr := 0 } ∧
    loserFirstTrace.cell.inited = true ∧
    loserFirstTrace.cell.data = 0 ∧
    (stepThread (some 42) loserFirstTrace 0).cell.data = 1 ∧
    List.lookup 0 (stepThread (some 42) loserFirstTrace 0).cell.heap = none := by
  decide

/-- C4: the three roles in one execution of the deref body, as steps of the
small-step semantics.  A thread whose CAS observes false becomes the winner
and moves to the construct phase; its construct step evaluates the
constructor, allocates a fresh box on the heap and publishes the pointer into
the slot; a thread whose CAS observes true performs no construction and moves
directly to the read phase; the read step dereferences the slot and records
the returned pointer. -/
theorem race_roles {T : Type} (v : T) (s : GState T) (i : Nat) (t : Thread)
    (ht : s.threads[i]? = some t) :
    (t.phase = Phase.start → s.cell.inited = false →
      (stepThread (some v) s i).cell.inited = true ∧
      (stepThread (some v) s i).threads[i]? =
        some { t with phase := Phase.construct, winner := true }) ∧
    (t.phase = Phase.construct →
      (stepThread (some v) s i).cell.ctorRuns = s.cell.ctorRuns + 1 ∧
      (stepThread (some v) s i).cell.heap = (s.cell.nextAddr, v) :: s.cell.heap ∧
      (stepThread (some v) s i).cell.data = s.cell.nextAddr ∧
      (stepThread (some v) s i).threads[i]? =
        some { t with phase := Phase.read }) ∧
    (t.phase = Phase.start → s.cell.inited = true →
      (stepThread (some v) s i).cell = s.cell ∧
      (stepThread (some v) s i).threads[i]? =
        some { t with phase := Phase.read, winner := false }) ∧
    (t.phase = Phase.read →
      (stepThread (some v) s i).cell = s.cell ∧
      (stepThread (some v) s i).threads[i]? =
        some { t with phase := Phase.done, retPtr := s.cell.data }) := by
  have hlt : i < s.threads.length := (List.getElem?_eq_some.mp ht).1
  refine ⟨fun h1 h2 => ?_, fun h1 => ?_, fun h1 h2 => ?_, fun h1 => ?_⟩ <;>
    simp [stepThread, ht, h1, List.getElem?_set_eq_of_lt, hlt]
  · simp [h2, List.getElem?_set_eq_of_lt, hlt]
  · simp [h2, List.getElem?_set_eq_of_lt, hlt]

/-- Witness for `race_roles`: a fresh two-thread state, thread 0. -/
theorem race_roles_witness :
    ((Thread.fresh).phase = Phase.start → (initG Nat 2).cell.inited = false →
      (stepThread (some 42) (initG Nat 2) 0).cell.inited = true ∧
      (stepThread (some 42) (initG Nat 2) 0).threads[0]? =
        some { Thread.fresh with phase := Phase.construct, winner := true }) ∧
    ((Thread.fresh).phase = Phase.construct →
      (stepThread (some 42) (initG Nat 2) 0).cell.ctorRuns =
        (initG Nat 2).cell.ctorRuns + 1 ∧
      (stepThread (some 42) (initG Nat 2) 0).cell.heap =
        ((initG Nat 2).cell.nextAddr, 42) :: (initG Nat 2).cell.heap ∧
      (stepThread (some 42) (initG Nat 2) 0).cell.data = (initG Nat 2).cell.nextAddr ∧
      (stepThread (some 42) (initG Nat 2) 0).threads[0]? =
        some { Thread.fresh with phase := Phase.read }) ∧
    ((Thread.fresh).phase = Phase.start → (initG Nat 2).cell.inited = true →
      (stepThread (some 42) (initG Nat 2) 0).cell = (initG Nat 2).cell ∧
      (stepThread (some 42) (initG Nat 2) 0).threads[0]? =
        some { Thread.fresh with phase := Phase.read, winner := false }) ∧
    ((Thread.fresh).phase = Phase.read →
      (stepThread (some 42) (initG Nat 2) 0).cell = (initG Nat 2).cell ∧
      (stepThread (some 42) (initG Nat 2) 0).threads[0]? =
        some { Thread.fresh with phase := Phase.done, retPtr := (initG Nat 2).cell.data }) :=
  race_roles 42 (initG Nat 2) 0 Thread.fresh (by decide)

end LazyStaticCore
